import Mathlib

/-!
Shallow embedding of `src/calgary_dogs.py` (ENSF692 Assignment 4,
"Dogs of Calgary" reporting utility).

The pandas `DataFrame` loaded by `import_file` (`index_col=[2, 0]`,
i.e. a MultiIndex on (Breed, Year) with remaining columns Month and
Total) is modelled as a `List Record`, one `Record` per spreadsheet
row.  Sums of the `Total` column are exact integer sums; the two
percentage computations (`100.0 * a / b` on floats in Python) are
modelled exactly over `ℚ`.  String normalization (`str.strip().upper()`)
is modelled over `List Char` with `Char.isWhitespace` and
`Char.toUpper`.  A pandas `KeyError` (raised by `df.loc` when a
requested label is absent from the index) is modelled as `Option.none`.
-/

namespace CalgaryDogs

/-- One row of the spreadsheet: (Breed, Year) index plus Month and
Total columns.  `count` is the `Total` column (registration count). -/
structure Record where
  breed : String
  year : Int
  month : String
  count : Int
deriving DecidableEq, Repr

/-- Python `str.strip()` on a character list: drop leading and trailing
whitespace. -/
def stripChars (l : List Char) : List Char :=
  ((l.dropWhile Char.isWhitespace).reverse.dropWhile Char.isWhitespace).reverse

/-- `make_string_friendly` (calgary_dogs.py line 50):
`return str.strip().upper()` — strip surrounding whitespace, then
uppercase every character. -/
def make_string_friendly (s : String) : String :=
  ⟨(stripChars s.data).map Char.toUpper⟩

/-- `parse_breed` (calgary_dogs.py lines 52-63): normalize the input and
return it when it is a member of the breed set, the empty string
otherwise. -/
def parse_breed (breed_set : List String) (s : String) : String :=
  let friendly_str := make_string_friendly s
  if friendly_str ∈ breed_set then friendly_str else ""

/-- `prompt_user_for_breed` (calgary_dogs.py lines 26-41), modelled over
the finite list of console inputs the user will type.  Returns
`some (n, b)` when the (n+1)-st input is the first one accepted by
`parse_breed` (so exactly `n` "not found" messages were printed before
success), `none` when every supplied input is rejected (the Python
loop would still be waiting for input). -/
def prompt_user_for_breed (breed_set : List String) : List String → Option (Nat × String)
  | [] => none
  | s :: rest =>
    let found_breed := parse_breed breed_set s
    if found_breed = "" then
      (prompt_user_for_breed breed_set rest).map (fun p => (p.1 + 1, p.2))
    else
      some (0, found_breed)

/-- `df.Total.sum()`: sum of the Total column over the whole frame. -/
def totalAll (df : List Record) : Int :=
  (df.map Record.count).sum

/-- Rows selected by `df.loc[(found_breed, slice(None)), :]` /
`df_unstacked["Breed"] == found_breed`: all records of one breed. -/
def breedRecords (df : List Record) (b : String) : List Record :=
  df.filter (fun r => r.breed == b)

/-- `report_total_registrations` (calgary_dogs.py lines 65-72):
`df.loc[(found_breed, slice(None)), :].Total.sum()`.  When the breed is
absent from the index level, `df.loc` raises `KeyError`, modelled as
`none`; otherwise the sum of Total over the breed's rows. -/
def report_total_registrations (df : List Record) (found_breed : String) : Option Int :=
  if df.any (fun r => r.breed == found_breed) then
    some ((breedRecords df found_breed).map Record.count).sum
  else
    none

/-- Sum of Total over rows matching (breed, year): the
`breed_mask & year_mask` filter of lines 86-90, and equally
`df.loc[(found_breed, int(year)), :].Total.sum()` of lines 101-102. -/
def breedYearTotal (df : List Record) (b : String) (y : Int) : Int :=
  ((df.filter (fun r => r.breed == b && r.year == y)).map Record.count).sum

/-- `df.loc[(slice(None), int(year)), :].Total.sum()` (lines 100, 103):
sum of Total over every row of one year, regardless of breed. -/
def yearTotal (df : List Record) (y : Int) : Int :=
  ((df.filter (fun r => r.year == y)).map Record.count).sum

/-- `year_range = range(2021, 2023 + 1, 1)` from `main`
(calgary_dogs.py line 137), in iteration order. -/
def year_range : List Int := [2021, 2022, 2023]

/-- The loop of calgary_dogs.py lines 85-92: the years of `year_range`
whose (breed, year) Total sum is positive, in ascending order (the
filter preserves the ascending iteration order of `range`). -/
def includedYears (df : List Record) (b : String) : List Int :=
  year_range.filter (fun y => decide (0 < breedYearTotal df b y))

/-- Lines 92-95: the included years are stringified (`str(year)`),
collected in a set, sorted (Python `list.sort()` on strings is
lexicographic) and joined with single spaces.  The set is modelled as
the duplicate-free list `includedYears`; sorting is
`List.insertionSort` on Lean's lexicographic `String` order. -/
def years_with_breed_str (df : List Record) (b : String) : String :=
  String.intercalate " "
    (List.insertionSort (fun s t => s ≤ t) ((includedYears df b).map toString))

/-- Line 104: `percent = 100.0 * breed_year_total / total_for_year_total`,
modelled exactly over `ℚ`. -/
def perYearPercent (df : List Record) (b : String) (y : Int) : ℚ :=
  100 * (breedYearTotal df b y : ℚ) / (yearTotal df y : ℚ)

/-- The per-year report loop of lines 99-105: for each included year
(iterated in ascending order, see `years_with_breed_str`), the year
paired with its percentage. -/
def perYearPercents (df : List Record) (b : String) : List (Int × ℚ) :=
  (includedYears df b).map (fun y => (y, perYearPercent df b y))

/-- Lines 109-110: `df.loc[(pd.IndexSlice[found_breed, :])].Total.sum()`,
the breed's Total over all years. -/
def breedTotal (df : List Record) (b : String) : Int :=
  ((breedRecords df b).map Record.count).sum

/-- Lines 111-112: `percent = 100.0 * breed_all_time / total_all_time`,
modelled exactly over `ℚ`. -/
def overallPercent (df : List Record) (b : String) : ℚ :=
  100 * (breedTotal df b : ℚ) / (totalAll df : ℚ)

/-- The Month column of the breed's rows
(`df_unstacked[df_unstacked["Breed"] == found_breed]`, line 122), in
row order. -/
def breedMonths (df : List Record) (b : String) : List String :=
  (breedRecords df b).map Record.month

/-- `groupby('Month')['Month'].count()` for one month label: the number
of rows of the breed carrying that label (rows are counted, not summed
registration counts). -/
def rowCnt (df : List Record) (b : String) (m : String) : Nat :=
  (breedMonths df b).count m

/-- The index of the `groupby('Month')` result: the distinct month
labels of the breed's rows, sorted ascending (pandas `groupby` sorts
group keys by default). -/
def monthLabels (df : List Record) (b : String) : List String :=
  List.insertionSort (fun s t => s ≤ t) (breedMonths df b).dedup

/-- `number_of_monthly_appearances.max()` (line 123), with 0 for an
empty series. -/
def maxMonthCnt (df : List Record) (b : String) : Nat :=
  ((monthLabels df b).map (rowCnt df b)).foldr max 0

/-- `list_most_popular_months` (calgary_dogs.py lines 115-126): the
month labels whose row count equals the maximum, in the order of the
groupby index (ascending label order). -/
def most_popular_months (df : List Record) (b : String) : List String :=
  (monthLabels df b).filter (fun m => rowCnt df b m == maxMonthCnt df b)

/-- Deduplication keeping the first occurrence of each element, in
first-occurrence order: the "insertion order" reading of the tie
reporting claim (used only to state that claim). -/
def firstOccDedup (l : List String) : List String :=
  l.foldl (fun acc a => if a ∈ acc then acc else acc ++ [a]) []

/-- Character lists of equal length agreeing pointwise up to letter
case. -/
def caseEqChars : List Char → List Char → Bool
  | [], [] => true
  | c :: cs, d :: ds => (Char.toUpper c == Char.toUpper d) && caseEqChars cs ds
  | _, _ => false

/-- `x` differs from `b` only in letter case and leading/trailing
whitespace: once surrounding whitespace is stripped, the two strings
agree character-by-character up to letter case. -/
def caseWSVariant (x b : String) : Prop :=
  caseEqChars (stripChars x.data) (stripChars b.data) = true

/-! ### Sample data

`dfA` is the scenario frame of the specification's §8: three LABRADOR
rows and one POODLE row. -/

def dfA : List Record :=
  [⟨"LABRADOR", 2021, "JAN", 5⟩, ⟨"LABRADOR", 2022, "JAN", 3⟩,
   ⟨"LABRADOR", 2022, "FEB", 3⟩, ⟨"POODLE", 2021, "JAN", 10⟩]

/-- Frame with two tied months whose first-occurrence order ("MAR"
before "JAN") differs from their lexicographic order. -/
def dfC4 : List Record :=
  [⟨"BEAGLE", 2021, "MAR", 2⟩, ⟨"BEAGLE", 2022, "JAN", 7⟩]

/-- Single-row frame used to witness the tie-reporting theorem. -/
def dfB : List Record := [⟨"BEAGLE", 2021, "JAN", 4⟩]

/-- Two-row frame, for the row-order-invariance witness. -/
def dfP : List Record :=
  [⟨"BEAGLE", 2021, "JAN", 1⟩, ⟨"BEAGLE", 2021, "FEB", 2⟩]

/-- `dfP` with its rows swapped. -/
def dfP' : List Record :=
  [⟨"BEAGLE", 2021, "FEB", 2⟩, ⟨"BEAGLE", 2021, "JAN", 1⟩]

/-! ### Shared helper lemmas -/

/-- A filtered sum of the Total column equals the sum of an
`if`-guarded mapping over the whole frame. -/
theorem sum_map_filter (p : Record → Bool) (df : List Record) :
    ((df.filter p).map Record.count).sum
      = (df.map (fun r => if p r then r.count else 0)).sum := by
  induction df with
  | nil => rfl
  | cons r t ih => by_cases h : p r <;> simp [List.filter_cons, h, ih]

/-- `breedYearTotal` as an `if`-guarded sum over the whole frame. -/
theorem breedYearTotal_eq_spec (df : List Record) (b : String) (y : Int) :
    breedYearTotal df b y
      = (df.map (fun r => if r.breed = b ∧ r.year = y then r.count else 0)).sum := by
  rw [breedYearTotal, sum_map_filter]
  simp only [Bool.and_eq_true, beq_iff_eq]

/-- `yearTotal` as an `if`-guarded sum over the whole frame. -/
theorem yearTotal_eq_spec (df : List Record) (y : Int) :
    yearTotal df y = (df.map (fun r => if r.year = y then r.count else 0)).sum := by
  rw [yearTotal, sum_map_filter]
  simp only [beq_iff_eq]

/-- `breedTotal` as an `if`-guarded sum over the whole frame. -/
theorem breedTotal_eq_spec (df : List Record) (b : String) :
    breedTotal df b
      = (df.map (fun r => if r.breed = b then r.count else 0)).sum := by
  rw [breedTotal, breedRecords, sum_map_filter]
  simp only [beq_iff_eq]

/-- Casting an `if`-guarded integer sum to `ℚ` pushes the cast inside. -/
theorem cast_sum_ite (p : Record → Prop) [DecidablePred p] (df : List Record) :
    (((df.map (fun r => if p r then r.count else 0)).sum : Int) : ℚ)
      = (df.map (fun r => if p r then (r.count : ℚ) else 0)).sum := by
  induction df with
  | nil => rfl
  | cons r t ih => by_cases h : p r <;> simp [h, ih]

/-- Filtering cannot increase a sum of non-negative counts: the breed's
share of a year is at most the year's grand total. -/
theorem breedYearTotal_le_yearTotal (df : List Record) (b : String) (y : Int)
    (hc : ∀ r ∈ df, 0 ≤ r.count) :
    breedYearTotal df b y ≤ yearTotal df y := by
  rw [breedYearTotal_eq_spec, yearTotal_eq_spec]
  apply List.sum_le_sum
  intro r hr
  have h0 := hc r hr
  by_cases hb : r.breed = b <;> by_cases hy : r.year = y <;> simp [hb, hy, h0]

/-- Sorting the stringified filtered year range is a no-op: the three
candidate year strings are already in lexicographic order. -/
theorem insertionSort_year_strs (p : Int → Bool) :
    List.insertionSort (fun s t => s ≤ t) ((year_range.filter p).map toString)
      = (year_range.filter p).map toString := by
  apply List.Sorted.insertionSort_eq
  have hmap : List.Sublist ((year_range.filter p).map toString) (year_range.map toString) :=
    (List.filter_sublist year_range).map toString
  have hall : List.Sorted (fun s t : String => s ≤ t) (year_range.map toString) := by
    have heval : year_range.map toString = ["2021", "2022", "2023"] := rfl
    rw [heval]
    exact List.Pairwise.cons (by simp only [List.mem_cons]; rintro a (rfl | rfl | h) <;>
        first
          | (rw [String.le_iff_toList_le]; decide)
          | cases h)
      (List.Pairwise.cons (by simp only [List.mem_cons]; rintro a (rfl | h) <;>
        first
          | (rw [String.le_iff_toList_le]; decide)
          | cases h)
        (List.pairwise_singleton _ _))
  exact hall.sublist hmap

/-! ### Claim theorems -/

/-- C6: the overall percentage computed by `list_years_with_breed`
equals 100 times the breed's summed count across all years divided by
the summed count of every record in the dataset. -/
theorem overallPercent_eq_spec (df : List Record) (b : String) :
    overallPercent df b
      = 100 * ((df.map (fun r => if r.breed = b then r.count else 0)).sum : ℚ)
          / ((df.map Record.count).sum : ℚ) := by
  simp only [overallPercent, breedTotal_eq_spec, cast_sum_ite, totalAll]

/-- C1: every per-year percentage reported by `list_years_with_breed`
equals 100 times the breed's summed count in that year divided by the
summed count of all records of that year, regardless of breed. -/
theorem perYearPercent_eq_spec (df : List Record) (b : String) (y : Int) (q : ℚ)
    (h : (y, q) ∈ perYearPercents df b) :
    q = 100 * ((df.map (fun r => if r.breed = b ∧ r.year = y then r.count else 0)).sum : ℚ)
          / ((df.map (fun r => if r.year = y then r.count else 0)).sum : ℚ) := by
  simp only [perYearPercents, List.mem_map] at h
  obtain ⟨y', _, heq⟩ := h
  obtain ⟨rfl, rfl⟩ := Prod.mk.injEq .. ▸ heq
  simp only [perYearPercent, breedYearTotal_eq_spec, yearTotal_eq_spec, cast_sum_ite]

/-- C1 witness: the 2021 LABRADOR percentage in the sample frame. -/
theorem perYearPercent_eq_spec_witness :
    perYearPercent dfA "LABRADOR" 2021
      = 100 * ((dfA.map (fun r => if r.breed = "LABRADOR" ∧ r.year = 2021 then r.count else 0)).sum : ℚ)
          / ((dfA.map (fun r => if r.year = 2021 then r.count else 0)).sum : ℚ) :=
  perYearPercent_eq_spec dfA "LABRADOR" 2021 (perYearPercent dfA "LABRADOR" 2021)
    (List.mem_map.mpr ⟨2021, by decide, rfl⟩)

/-- C3 counterexample: for a breed absent from the frame,
`report_total_registrations` fails with a `KeyError` (modelled `none`)
instead of returning 0. -/
theorem report_total_keyerror_cex :
    report_total_registrations [⟨"LABRADOR", 2021, "JAN", 5⟩] "POODLE" = none ∧
      report_total_registrations [⟨"LABRADOR", 2021, "JAN", 5⟩] "POODLE" ≠ some 0 := by
  decide

/-- C3 (amended): for every breed with at least one matching record,
`report_total_registrations` returns the sum of count over the breed's
records across all years and months, independent of record order. -/
theorem report_total_eq_spec (df : List Record) (b : String)
    (h : ∃ r ∈ df, r.breed = b) :
    report_total_registrations df b
      = some ((df.map (fun r => if r.breed = b then r.count else 0)).sum)
    ∧ ∀ df', df.Perm df' →
        report_total_registrations df b = report_total_registrations df' b := by
  obtain ⟨r0, hr0, hb0⟩ := h
  have hb1 : df.any (fun r => r.breed == b) = true :=
    List.any_eq_true.mpr ⟨r0, hr0, by simp [hb0]⟩
  constructor
  · simp only [report_total_registrations, hb1, if_true]
    rw [show ((breedRecords df b).map Record.count).sum
          = (df.map (fun r => if r.breed = b then r.count else 0)).sum from
        breedTotal_eq_spec df b]
  · intro df' hp
    have hb2 : df'.any (fun r => r.breed == b) = true :=
      List.any_eq_true.mpr ⟨r0, hp.mem_iff.mp hr0, by simp [hb0]⟩
    have hsum : ((breedRecords df b).map Record.count).sum
        = ((breedRecords df' b).map Record.count).sum :=
      ((hp.filter _).map _).sum_eq
    unfold report_total_registrations
    rw [if_pos hb1, if_pos hb2]
    exact congrArg some hsum

/-- C3 witness: the LABRADOR total in the sample frame. -/
theorem report_total_eq_spec_witness :
    report_total_registrations dfA "LABRADOR"
      = some ((dfA.map (fun r => if r.breed = "LABRADOR" then r.count else 0)).sum) :=
  (report_total_eq_spec dfA "LABRADOR" (by decide)).1

/-- C5: a year of the range is included exactly when the breed's summed
count in it is positive; the included years are ascending, and the
reported string joins their decimal representations with single
spaces. -/
theorem years_with_breed_spec (df : List Record) (b : String) :
    (∀ y : Int, y ∈ includedYears df b ↔
        (y ∈ year_range ∧
          0 < (df.map (fun r => if r.breed = b ∧ r.year = y then r.count else 0)).sum))
    ∧ List.Sorted (fun a c => a ≤ c) (includedYears df b)
    ∧ years_with_breed_str df b
        = String.intercalate " " ((includedYears df b).map toString) := by
  refine ⟨?_, ?_, ?_⟩
  · intro y
    rw [includedYears, List.mem_filter, ← breedYearTotal_eq_spec]
    simp
  · have base : List.Pairwise (fun a c : Int => a ≤ c) year_range := by decide
    exact base.filter _
  · rw [years_with_breed_str, includedYears, insertionSort_year_strs]

/-- C8: under the data-model invariant that counts are non-negative, a
year iterated by the percentage loop has a positive breed total and
hence a positive grand total — the division's denominator is never
zero. -/
theorem included_year_totals_pos (df : List Record) (b : String) (y : Int)
    (hc : ∀ r ∈ df, 0 ≤ r.count) (hy : y ∈ includedYears df b) :
    0 < breedYearTotal df b y ∧ 0 < yearTotal df y := by
  have h1 : 0 < breedYearTotal df b y := by
    have h2 := (List.mem_filter.mp hy).2
    simpa using h2
  exact ⟨h1, lt_of_lt_of_le h1 (breedYearTotal_le_yearTotal df b y hc)⟩

/-- C8 witness: the 2021 LABRADOR totals in the sample frame. -/
theorem included_year_totals_pos_witness :
    0 < breedYearTotal dfA "LABRADOR" 2021 ∧ 0 < yearTotal dfA 2021 :=
  included_year_totals_pos dfA "LABRADOR" 2021 (by decide) (by decide)

/-! ### Month popularity lemmas -/

/-- Months of the breed's rows are exactly the months of records with
that breed. -/
theorem mem_breedMonths (df : List Record) (b m : String) :
    m ∈ breedMonths df b ↔ ∃ r ∈ df, r.breed = b ∧ r.month = m := by
  simp only [breedMonths, breedRecords, List.mem_map, List.mem_filter, beq_iff_eq]
  constructor
  · rintro ⟨r, ⟨hr, hb⟩, hm⟩
    exact ⟨r, hr, hb, hm⟩
  · rintro ⟨r, hr, hb, hm⟩
    exact ⟨r, ⟨hr, hb⟩, hm⟩

/-- The groupby index holds exactly the months occurring for the breed. -/
theorem mem_monthLabels (df : List Record) (b m : String) :
    m ∈ monthLabels df b ↔ m ∈ breedMonths df b := by
  rw [monthLabels, (List.perm_insertionSort _ _).mem_iff]
  exact List.mem_dedup

/-- Any element of a list of naturals is at most the folded maximum. -/
theorem le_foldr_max (l : List Nat) (x : Nat) (h : x ∈ l) : x ≤ l.foldr max 0 := by
  induction l with
  | nil => cases h
  | cons a t ih =>
    rcases List.mem_cons.mp h with rfl | h'
    · exact le_max_left _ _
    · exact le_trans (ih h') (le_max_right _ _)

/-- The folded maximum is bounded by any upper bound of the list. -/
theorem foldr_max_le (l : List Nat) (k : Nat) (h : ∀ x ∈ l, x ≤ k) :
    l.foldr max 0 ≤ k := by
  induction l with
  | nil => exact Nat.zero_le k
  | cons a t ih =>
    exact max_le (h a (List.mem_cons_self a t))
      (ih (fun x hx => h x (List.mem_cons_of_mem a hx)))

/-- A positive folded maximum is attained by some list element. -/
theorem foldr_max_mem (l : List Nat) (hpos : 0 < l.foldr max 0) :
    l.foldr max 0 ∈ l := by
  induction l with
  | nil => simp at hpos
  | cons a t ih =>
    simp only [List.foldr_cons] at hpos ⊢
    rcases le_total a (t.foldr max 0) with h | h
    · rw [max_eq_right h] at hpos ⊢
      exact List.mem_cons_of_mem a (ih hpos)
    · rw [max_eq_left h]
      exact List.mem_cons_self a t

/-- The row count of a month counts the breed's records carrying that
month label, each record once, regardless of its registration count. -/
theorem rowCnt_eq_spec (df : List Record) (b m : String) :
    rowCnt df b m
      = (df.filter (fun r => decide (r.breed = b ∧ r.month = m))).length := by
  induction df with
  | nil => rfl
  | cons r t ih =>
    simp only [rowCnt, breedMonths, breedRecords] at ih ⊢
    by_cases hb : r.breed = b
    · by_cases hm : r.month = m
      · simp [List.filter_cons, hb, hm, List.count_cons, ih]
      · simp [List.filter_cons, hb, hm, List.count_cons, ih]
    · simp [List.filter_cons, hb, ih]

/-- Every month's row count is bounded by the groupby maximum. -/
theorem rowCnt_le_maxMonthCnt (df : List Record) (b m : String) :
    rowCnt df b m ≤ maxMonthCnt df b := by
  by_cases hm : m ∈ breedMonths df b
  · exact le_foldr_max _ _
      (List.mem_map.mpr ⟨m, (mem_monthLabels df b m).mpr hm, rfl⟩)
  · rw [rowCnt, List.count_eq_zero_of_not_mem hm]
    exact Nat.zero_le _

/-- When the breed occurs at all, the groupby maximum is attained by
some month of the breed. -/
theorem maxMonthCnt_attained (df : List Record) (b : String)
    (h : ∃ r ∈ df, r.breed = b) :
    ∃ m ∈ monthLabels df b, rowCnt df b m = maxMonthCnt df b := by
  obtain ⟨r, hr, hb⟩ := h
  have hmem : r.month ∈ breedMonths df b :=
    (mem_breedMonths df b r.month).mpr ⟨r, hr, hb, rfl⟩
  have hcnt : 0 < rowCnt df b r.month := List.count_pos_iff.mpr hmem
  have hposmax : 0 < maxMonthCnt df b :=
    lt_of_lt_of_le hcnt (rowCnt_le_maxMonthCnt df b r.month)
  have hattain : maxMonthCnt df b ∈ (monthLabels df b).map (rowCnt df b) :=
    foldr_max_mem _ hposmax
  obtain ⟨m, hm, heq⟩ := List.mem_map.mp hattain
  exact ⟨m, hm, heq⟩

/-! ### Month popularity claim theorems -/

/-- C2: for a breed with at least one record,
`list_most_popular_months` returns a non-empty list holding exactly the
month labels of maximal row count, where the row count counts the
breed's records per month label (one per row, not summing
registrations). -/
theorem most_popular_months_spec (df : List Record) (b : String)
    (h : ∃ r ∈ df, r.breed = b) :
    most_popular_months df b ≠ [] ∧
      (∀ m, m ∈ most_popular_months df b ↔
        ((∃ r ∈ df, r.breed = b ∧ r.month = m) ∧
          ∀ m', rowCnt df b m' ≤ rowCnt df b m)) ∧
      (∀ m, rowCnt df b m
          = (df.filter (fun r => decide (r.breed = b ∧ r.month = m))).length) := by
  obtain ⟨m0, hm0, heq0⟩ := maxMonthCnt_attained df b h
  refine ⟨?_, ?_, fun m => rowCnt_eq_spec df b m⟩
  · apply List.ne_nil_of_mem (a := m0)
    rw [most_popular_months, List.mem_filter]
    exact ⟨hm0, by simp [heq0]⟩
  · intro m
    rw [most_popular_months, List.mem_filter]
    constructor
    · rintro ⟨hml, hcnt⟩
      have hcnt' : rowCnt df b m = maxMonthCnt df b := by simpa using hcnt
      refine ⟨(mem_breedMonths df b m).mp ((mem_monthLabels df b m).mp hml), ?_⟩
      intro m'
      rw [hcnt']
      exact rowCnt_le_maxMonthCnt df b m'
    · rintro ⟨hex, hall⟩
      have hml : m ∈ monthLabels df b :=
        (mem_monthLabels df b m).mpr ((mem_breedMonths df b m).mpr hex)
      have h1 : rowCnt df b m ≤ maxMonthCnt df b := rowCnt_le_maxMonthCnt df b m
      have h2 : maxMonthCnt df b ≤ rowCnt df b m := heq0 ▸ hall m0
      exact ⟨hml, by simp [le_antisymm h1 h2]⟩

/-- C2 witness: LABRADOR has records in the sample frame, so its
most-popular-months list is non-empty. -/
theorem most_popular_months_spec_witness :
    most_popular_months dfA "LABRADOR" ≠ [] :=
  (most_popular_months_spec dfA "LABRADOR" (by decide)).1

/-- C4 counterexample: with both months tied at one row each, the code
reports them in lexicographic order ("JAN MAR"), not in the data's
first-occurrence order ("MAR JAN"). -/
theorem months_tie_order_cex :
    most_popular_months dfC4 "BEAGLE" = ["JAN", "MAR"]
      ∧ firstOccDedup (breedMonths dfC4 "BEAGLE") = ["MAR", "JAN"]
      ∧ (["JAN", "MAR"] : List String) ≠ ["MAR", "JAN"] := by
  have hMJ : ¬ (("MAR" : String) ≤ "JAN") := by
    rw [String.le_iff_toList_le]; decide
  have hdedup : (breedMonths dfC4 "BEAGLE").dedup = ["MAR", "JAN"] := by decide
  have hlab : monthLabels dfC4 "BEAGLE" = ["JAN", "MAR"] := by
    rw [monthLabels, hdedup]
    simp [List.insertionSort, List.orderedInsert, hMJ]
  refine ⟨?_, by decide, by decide⟩
  unfold most_popular_months maxMonthCnt
  rw [hlab]
  decide

/-- C4 (amended): all tied months are reported, and the report order is
ascending lexicographic month-label order (a deterministic function of
the input data), not first-occurrence order. -/
theorem most_popular_months_ties_lex (df : List Record) (b : String) :
    List.Sorted (fun s t : String => s ≤ t) (most_popular_months df b) ∧
      ∀ m, (∃ r ∈ df, r.breed = b ∧ r.month = m) →
        (∀ m', rowCnt df b m' ≤ rowCnt df b m) →
          m ∈ most_popular_months df b := by
  constructor
  · exact (List.sorted_insertionSort _ _).filter _
  · intro m hex hall
    have hml : m ∈ monthLabels df b :=
      (mem_monthLabels df b m).mpr ((mem_breedMonths df b m).mpr hex)
    have h1 : rowCnt df b m ≤ maxMonthCnt df b := rowCnt_le_maxMonthCnt df b m
    have h2 : maxMonthCnt df b ≤ rowCnt df b m :=
      foldr_max_le _ _ (by rintro x hx; obtain ⟨m', _, rfl⟩ := List.mem_map.mp hx; exact hall m')
    rw [most_popular_months, List.mem_filter]
    exact ⟨hml, by simp [le_antisymm h1 h2]⟩

/-- C4 witness: the only month of a one-row frame is reported. -/
theorem most_popular_months_ties_lex_witness :
    "JAN" ∈ most_popular_months dfB "BEAGLE" := by
  apply (most_popular_months_ties_lex dfB "BEAGLE").2 "JAN" (by decide)
  intro m'
  calc rowCnt dfB "BEAGLE" m' ≤ (breedMonths dfB "BEAGLE").length :=
        List.count_le_length m' (breedMonths dfB "BEAGLE")
  _ ≤ rowCnt dfB "BEAGLE" "JAN" := by decide

/-- C10: the reported months are strictly ascending in lexicographic
label order, and the report is invariant under permuting the input
rows. -/
theorem most_popular_months_lex_order_perm (df df' : List Record) (b : String) :
    List.Sorted (fun s t : String => s < t) (most_popular_months df b) ∧
      (df.Perm df' → most_popular_months df b = most_popular_months df' b) := by
  constructor
  · have hsorted : List.Sorted (fun s t : String => s ≤ t) (most_popular_months df b) :=
      (List.sorted_insertionSort _ _).filter _
    have hnodup : (most_popular_months df b).Nodup := by
      apply List.Nodup.filter
      exact ((List.perm_insertionSort (fun s t : String => s ≤ t) _).nodup_iff).mpr
        (List.nodup_dedup _)
    exact (hsorted.and hnodup).imp (fun h => lt_of_le_of_ne h.1 h.2)
  · intro hp
    have hmp : (breedMonths df b).Perm (breedMonths df' b) := (hp.filter _).map _
    have hlab : monthLabels df b = monthLabels df' b := by
      unfold monthLabels
      have hperm : (List.insertionSort (fun s t : String => s ≤ t)
            (breedMonths df b).dedup).Perm
          (List.insertionSort (fun s t : String => s ≤ t) (breedMonths df' b).dedup) :=
        ((List.perm_insertionSort _ _).trans hmp.dedup).trans
          (List.perm_insertionSort _ _).symm
      exact List.eq_of_perm_of_sorted hperm (List.sorted_insertionSort _ _)
        (List.sorted_insertionSort _ _)
    have hcnt : ∀ m, rowCnt df b m = rowCnt df' b m := fun m => hmp.count_eq m
    have hmax : maxMonthCnt df b = maxMonthCnt df' b := by
      unfold maxMonthCnt
      rw [List.map_congr_left (fun m _ => hcnt m), hlab]
    unfold most_popular_months
    rw [hlab]
    exact List.filter_congr (fun m _ => by rw [hcnt, hmax])

/-- C10 witness: swapping the rows of a two-row frame leaves the
reported months unchanged. -/
theorem most_popular_months_lex_order_perm_witness :
    most_popular_months dfP "BEAGLE" = most_popular_months dfP' "BEAGLE" :=
  (most_popular_months_lex_order_perm dfP dfP' "BEAGLE").2 (by decide)

/-! ### Breed validation claim theorems -/

/-- C7: under the data-model invariant that breed names are non-empty,
whenever the prompt loop returns it has printed one not-found message
per rejected input (all inputs before position `n`, none of which
normalize into the breed set — rejection is never fatal), and it
returns the normalization of input `n`, which is a member of the breed
set. -/
theorem prompt_user_spec (breed_set : List String) (inputs : List String)
    (hne : "" ∉ breed_set) (n : Nat) (b : String)
    (h : prompt_user_for_breed breed_set inputs = some (n, b)) :
    b ∈ breed_set ∧ n < inputs.length
      ∧ b = make_string_friendly (inputs.getD n "")
      ∧ ∀ s ∈ inputs.take n, make_string_friendly s ∉ breed_set := by
  induction inputs generalizing n with
  | nil => simp [prompt_user_for_breed] at h
  | cons s rest ih =>
    rw [prompt_user_for_breed] at h
    by_cases hf : parse_breed breed_set s = ""
    · rw [if_pos hf] at h
      have hsnot : make_string_friendly s ∉ breed_set := by
        intro hmem
        rw [parse_breed] at hf
        simp only [hmem, if_true] at hf
        exact hne (hf ▸ hmem)
      cases hrec : prompt_user_for_breed breed_set rest with
      | none => rw [hrec] at h; cases h
      | some p =>
        obtain ⟨n', b'⟩ := p
        rw [hrec] at h
        simp only [Option.map, Option.some.injEq, Prod.mk.injEq] at h
        obtain ⟨rfl, rfl⟩ := h
        obtain ⟨ih1, ih2, ih3, ih4⟩ := ih n' hrec
        refine ⟨ih1, by simpa using ih2, ih3, ?_⟩
        intro x hx
        rcases List.mem_cons.mp (by simpa [List.take_succ_cons] using hx) with rfl | hx'
        · exact hsnot
        · exact ih4 x hx'
    · rw [if_neg hf] at h
      simp only [Option.some.injEq, Prod.mk.injEq] at h
      obtain ⟨rfl, rfl⟩ := h
      rw [parse_breed] at hf ⊢
      by_cases hmem : make_string_friendly s ∈ breed_set
      · rw [if_pos hmem]
        exact ⟨hmem, by simp, rfl, by simp⟩
      · rw [if_neg hmem] at hf
        exact absurd rfl hf

/-- C7 witness: "poodle" is rejected once, then " labrador " is
normalized and accepted. -/
theorem prompt_user_spec_witness :
    ("LABRADOR" : String) ∈ ["LABRADOR"]
      ∧ 1 < ([("poodle" : String), " labrador "]).length
      ∧ ("LABRADOR" : String)
          = make_string_friendly ([("poodle" : String), " labrador "].getD 1 "") :=
  have t := prompt_user_spec ["LABRADOR"] ["poodle", " labrador "] (by decide) 1
    "LABRADOR" (by decide)
  ⟨t.1, t.2.1, t.2.2.1⟩

/-! ### Normalization lemmas -/

/-- Uppercasing a lowercase letter yields its basic-latin uppercase
form: concrete facts about `Char.ofNat (n - 32)` for `n` in the
lowercase range. -/
theorem toNat_toUpper_of_lower (n : Nat) (h1 : 97 ≤ n) (h2 : n ≤ 122) :
    (Char.ofNat (n - 32)).toNat = n - 32
      ∧ ¬((Char.ofNat (n - 32)).toNat ≥ 97 ∧ (Char.ofNat (n - 32)).toNat ≤ 122)
      ∧ (Char.ofNat (n - 32)).isWhitespace = false := by
  interval_cases n <;> exact (by decide)

/-- `Char.toUpper` is idempotent. -/
theorem toUpper_idem (c : Char) : c.toUpper.toUpper = c.toUpper := by
  simp only [Char.toUpper]
  by_cases h : c.toNat ≥ 97 ∧ c.toNat ≤ 122
  · rw [if_pos h, if_neg (toNat_toUpper_of_lower c.toNat h.1 h.2).2.1]
  · rw [if_neg h, if_neg h]

/-- Whitespace characters are never lowercase letters, so uppercasing
preserves whitespace-ness. -/
theorem isWS_false_of_ge (c : Char) (h : 65 ≤ c.toNat) : c.isWhitespace = false := by
  simp only [Char.isWhitespace, Bool.or_eq_false_iff, decide_eq_false_iff_not]
  refine ⟨⟨⟨?_, ?_⟩, ?_⟩, ?_⟩ <;> rintro rfl <;> exact absurd h (by decide)

/-- Uppercasing preserves the whitespace predicate. -/
theorem isWhitespace_toUpper (c : Char) : c.toUpper.isWhitespace = c.isWhitespace := by
  simp only [Char.toUpper]
  by_cases h : c.toNat ≥ 97 ∧ c.toNat ≤ 122
  · rw [if_pos h, (toNat_toUpper_of_lower c.toNat h.1 h.2).2.2,
      isWS_false_of_ge c (by omega)]
  · rw [if_neg h]

/-- `dropWhile` is idempotent. -/
theorem dropWhile_dropWhile (p : Char → Bool) (l : List Char) :
    (l.dropWhile p).dropWhile p = l.dropWhile p := by
  induction l with
  | nil => rfl
  | cons a t ih =>
    by_cases h : p a
    · simp [List.dropWhile_cons, h, ih]
    · simp [List.dropWhile_cons, h]

/-- The stripped list is a prefix of the leading-whitespace-dropped
list. -/
theorem stripChars_append (l : List Char) :
    stripChars l
        ++ ((l.dropWhile Char.isWhitespace).reverse.takeWhile Char.isWhitespace).reverse
      = l.dropWhile Char.isWhitespace := by
  rw [stripChars, ← List.reverse_append, List.takeWhile_append_dropWhile,
    List.reverse_reverse]

/-- The head surviving a `dropWhile` fails the predicate. -/
theorem dropWhile_head_false (p : Char → Bool) (l : List Char) (c : Char)
    (t : List Char) (h : l.dropWhile p = c :: t) : p c = false := by
  induction l with
  | nil => cases h
  | cons a s ih =>
    by_cases ha : p a
    · rw [List.dropWhile_cons, if_pos ha] at h
      exact ih h
    · rw [List.dropWhile_cons, if_neg ha] at h
      cases h
      exact Bool.eq_false_iff.mpr ha

/-- A stripped list never starts with whitespace. -/
theorem stripChars_head_not_ws (l : List Char) (c : Char) (t : List Char)
    (h : stripChars l = c :: t) : c.isWhitespace = false := by
  have happ := stripChars_append l
  rw [h, List.cons_append] at happ
  exact dropWhile_head_false Char.isWhitespace l c _ happ.symm

/-- Stripping surrounding whitespace is idempotent. -/
theorem stripChars_idem (l : List Char) : stripChars (stripChars l) = stripChars l := by
  have hdrop : (stripChars l).dropWhile Char.isWhitespace = stripChars l := by
    cases hs : stripChars l with
    | nil => rfl
    | cons c t =>
      have hc : c.isWhitespace = false := stripChars_head_not_ws l c t hs
      rw [List.dropWhile_cons, hc]
      simp
  conv_lhs => rw [stripChars]
  rw [hdrop,
    show (stripChars l).reverse
        = (l.dropWhile Char.isWhitespace).reverse.dropWhile Char.isWhitespace from by
      rw [stripChars, List.reverse_reverse],
    dropWhile_dropWhile]
  rfl

/-- Stripping commutes with uppercasing. -/
theorem stripChars_map_toUpper (l : List Char) :
    stripChars (l.map Char.toUpper) = (stripChars l).map Char.toUpper := by
  have hp : Char.isWhitespace ∘ Char.toUpper = Char.isWhitespace :=
    funext isWhitespace_toUpper
  rw [stripChars, stripChars, List.dropWhile_map, hp, ← List.map_reverse,
    List.dropWhile_map, hp, ← List.map_reverse]

/-- Uppercasing a character list is idempotent. -/
theorem map_toUpper_idem (l : List Char) :
    (l.map Char.toUpper).map Char.toUpper = l.map Char.toUpper := by
  rw [List.map_map]
  exact List.map_congr_left (fun c _ => toUpper_idem c)

/-- Case-insensitively equal character lists have equal uppercasings. -/
theorem caseEqChars_map (l₁ l₂ : List Char) (h : caseEqChars l₁ l₂ = true) :
    l₁.map Char.toUpper = l₂.map Char.toUpper := by
  induction l₁ generalizing l₂ with
  | nil =>
    cases l₂ with
    | nil => rfl
    | cons d ds => simp [caseEqChars] at h
  | cons c cs ih =>
    cases l₂ with
    | nil => simp [caseEqChars] at h
    | cons d ds =>
      simp only [caseEqChars, Bool.and_eq_true, beq_iff_eq] at h
      simp [h.1, ih ds h.2]

/-- C9: breed normalization is idempotent, and any two case/whitespace
variants of the same breed normalize to the same value. -/
theorem make_string_friendly_idem_variants :
    (∀ s : String,
        make_string_friendly (make_string_friendly s) = make_string_friendly s)
      ∧ ∀ b x₁ x₂ : String, caseWSVariant x₁ b → caseWSVariant x₂ b →
          make_string_friendly x₁ = make_string_friendly x₂ := by
  constructor
  · intro s
    rw [make_string_friendly, make_string_friendly,
      show (⟨(stripChars s.data).map Char.toUpper⟩ : String).data
          = (stripChars s.data).map Char.toUpper from rfl,
      stripChars_map_toUpper, stripChars_idem, map_toUpper_idem]
  · intro b x₁ x₂ h₁ h₂
    rw [make_string_friendly, make_string_friendly]
    exact congrArg (fun l : List Char => (⟨l⟩ : String))
      ((caseEqChars_map _ _ h₁).trans (caseEqChars_map _ _ h₂).symm)

/-- C9 witness: two case/whitespace variants of "LABRADOR" normalize
identically. -/
theorem make_string_friendly_idem_variants_witness :
    make_string_friendly " labrador " = make_string_friendly "LABRADOR " :=
  make_string_friendly_idem_variants.2 "LABRADOR" " labrador " "LABRADOR "
    (by unfold caseWSVariant; decide) (by unfold caseWSVariant; decide)

end CalgaryDogs
